import Mathlib

/-!
The batchimport repository: schema validation and header extraction.

A shallow embedding of `pkg/schema/types.go` and `pkg/reader/reader.go`.

* Go strings are Lean `String`s, slices are `List`s.
* A Go `map[string]T` is `Option (List (String × T))`: `none` is the nil map,
  `some kvs` a non-nil map whose entries are `kvs` (lookup takes the first entry
  with the key, so a list with unique keys is exactly a Go map).
* A Go `error` result is an `Option` of an error value: `none` is `nil`; a result pair
  `(T, error)` whose value is dropped on failure is an `Except`.
* Go strings are byte strings and the library code below scans them bytewise for ASCII
  characters only; on text it meets the same characters as the scan of a `List Char`.
* The validator's `schema` pointer is taken non-nil, as `NewSchemaValidator` receives it
  from a successful fetch.
-/

namespace BatchImport

set_option linter.dupNamespace false

/-! ## Data model (`pkg/schema/types.go`) -/

/-- Dynamic JSON value, the shape `encoding/json` decodes into an `any`. -/
inductive Json where
  | null : Json
  | bool (b : Bool) : Json
  | num (lit : String) : Json
  | str (s : String) : Json
  | arr (xs : List Json) : Json
  | obj (kvs : List (String × Json)) : Json
  deriving Repr

/-- The struct `TraitField`; the field `Type` is spelled `Type_`. -/
inductive TraitField where
  | mk (Type_ Format Title : String) (MaxLength : Int)
      (Properties : Option (List (String × TraitField)))
      (Credentials : Option (List (String × Json))) : TraitField

namespace TraitField

def Type_ : TraitField → String
  | mk t _ _ _ _ _ => t

def Format : TraitField → String
  | mk _ f _ _ _ _ => f

def Title : TraitField → String
  | mk _ _ t _ _ _ => t

def MaxLength : TraitField → Int
  | mk _ _ _ n _ _ => n

def Properties : TraitField → Option (List (String × TraitField))
  | mk _ _ _ _ p _ => p

def Credentials : TraitField → Option (List (String × Json))
  | mk _ _ _ _ _ c => c

end TraitField

/-- The struct `TraitProperties`. -/
structure TraitProperties where
  Type_ : String
  Properties : Option (List (String × TraitField))
  Required : List String
  AdditionalProperties : Bool

/-- The struct `Properties`. -/
structure Properties where
  Traits : TraitProperties

/-- The struct `Schema`. -/
structure Schema where
  ID : String
  Schema : String
  Title : String
  Type_ : String
  Properties : Properties

/-! ## Go map primitives -/

/-- Keys of a Go map; a nil map has none. -/
def mapKeys {α : Type} : Option (List (String × α)) → List String
  | none => []
  | some kvs => kvs.map Prod.fst

/-- The two-result lookup `v, ok := m[k]`; a nil map holds nothing. -/
def mapLookup {α : Type} (m : Option (List (String × α))) (k : String) : Option α :=
  match m with
  | none => none
  | some kvs => kvs.lookup k

/-- The assignment `m[k] = v` on a non-nil map. -/
def mapSet {α : Type} : List (String × α) → String → α → List (String × α)
  | [], k, v => [(k, v)]
  | (k', v') :: rest, k, v =>
    if k' == k then (k, v) :: rest else (k', v') :: mapSet rest k v

/-- The one-result lookup `m[k]` on a `map[string]bool`: absent keys give `false`. -/
def boolGet (m : List (String × Bool)) (k : String) : Bool :=
  match m.lookup k with
  | some b => b
  | none => false

/-! ## `SchemaValidator.ValidateHeaders` -/

/-- Errors returned by `ValidateHeaders`, one constructor per `fmt.Errorf` site. -/
inductive HeaderError where
  | traitsNotFound : HeaderError
  | headerNotInSchema (header : String) : HeaderError
  | requiredNotInHeaders (required : String) : HeaderError
  deriving DecidableEq, Repr

/-- The message of each error, as formatted by `fmt.Errorf`. -/
def HeaderError.Error : HeaderError → String
  | .traitsNotFound => "invalid schema format: traits properties not found"
  | .headerNotInSchema header => "header \x27" ++ header ++ "\x27 not found in schema"
  | .requiredNotInHeaders required =>
    "required field \x27" ++ required ++ "\x27 not found in headers"

/-- The loop `for prop := range traits { schemaProps[prop] = true }` from an empty map. -/
def buildSchemaProps (traits : List (String × TraitField)) : List (String × Bool) :=
  traits.foldl (fun acc kv => mapSet acc kv.1 true) []

/-- The loop over `headers` that rejects the first header missing from `schemaProps`. -/
def checkHeaders (schemaProps : List (String × Bool)) : List String → Option HeaderError
  | [] => none
  | header :: rest =>
    if !(boolGet schemaProps header) then some (.headerNotInSchema header)
    else checkHeaders schemaProps rest

/-- The inner loop computing `found` for one required name. -/
def findHeader (required : String) : List String → Bool
  | [] => false
  | header :: rest => if header == required then true else findHeader required rest

/-- The loop over `Required` that rejects the first name with `found == false`. -/
def checkRequired (headers : List String) : List String → Option HeaderError
  | [] => none
  | required :: rest =>
    if !(findHeader required headers) then some (.requiredNotInHeaders required)
    else checkRequired headers rest

/-- The method `ValidateHeaders` of a validator over schema `s`; `none` is a nil error. -/
def ValidateHeaders (s : Schema) (headers : List String) : Option HeaderError :=
  match s.Properties.Traits.Properties with
  | none => some .traitsNotFound
  | some traits =>
    match checkHeaders (buildSchemaProps traits) headers with
    | some e => some e
    | none => checkRequired headers s.Properties.Traits.Required

/-- Fail-fast reference written from the specification: the first header (caller order)
that is not a declared trait is reported as unknown; failing that, the first name of
`Required` (schema order) absent from the headers is reported as missing; failing that,
success. `declared` is the set of trait names. -/
def validateHeadersRef (declared required headers : List String) : Option HeaderError :=
  match headers.find? (fun header => decide (header ∉ declared)) with
  | some header => some (.headerNotInSchema header)
  | none =>
    match required.find? (fun name => decide (name ∉ headers)) with
    | some name => some (.requiredNotInHeaders name)
    | none => none

/-- A schema whose traits mapping is the nil map and that requires nothing. -/
def nilTraitsSchema : Schema :=
  { ID := "", Schema := "", Title := "", Type_ := "object",
    Properties := { Traits :=
      { Type_ := "object", Properties := none, Required := [],
        AdditionalProperties := false } } }

/-- A schema whose traits mapping is the nil map and that requires `email`. -/
def nilTraitsRequiredSchema : Schema :=
  { ID := "", Schema := "", Title := "", Type_ := "object",
    Properties := { Traits :=
      { Type_ := "object", Properties := none, Required := ["email"],
        AdditionalProperties := false } } }

/-- A string-typed trait with no further constraints. -/
def plainString : TraitField := .mk "string" "" "" 0 none none

/-- A schema declaring the traits `email` and `name`, requiring `email`. -/
def emailSchema : Schema :=
  { ID := "", Schema := "", Title := "", Type_ := "object",
    Properties := { Traits :=
      { Type_ := "object",
        Properties := some [("email", plainString), ("name", plainString)],
        Required := ["email"], AdditionalProperties := false } } }

/-- A schema requiring `phone` without declaring it. -/
def danglingRequiredSchema : Schema :=
  { ID := "", Schema := "", Title := "", Type_ := "object",
    Properties := { Traits :=
      { Type_ := "object", Properties := some [("email", plainString)],
        Required := ["phone"], AdditionalProperties := false } } }

/-- A schema whose traits mapping is present and empty. -/
def emptyTraitsSchema : Schema :=
  { ID := "", Schema := "", Title := "", Type_ := "object",
    Properties := { Traits :=
      { Type_ := "object", Properties := some [], Required := [],
        AdditionalProperties := false } } }

/-! ## `DetectFormat` (`pkg/reader/reader.go`) -/

/-- The string type `Format`. -/
abbrev Format := String

/-- The constant `FormatCSV`. -/
def FormatCSV : Format := "csv"

/-- The constant `FormatJSON`. -/
def FormatJSON : Format := "json"

/-- The library predicate `os.IsPathSeparator` (Unix build): only the slash. -/
def IsPathSeparator (c : Char) : Bool := c == '/'

/-- The loop of the library function `filepath.Ext`:
`for i := len(path)-1; i >= 0 && !os.IsPathSeparator(path[i]); i--`, returning `path[i:]`
at the first dot met and the empty string when the loop ends. The counter is `i + 1`. -/
def extLoop (path : List Char) : Nat → List Char
  | 0 => []
  | i + 1 =>
    match path[i]? with
    | none => []
    | some c =>
      if IsPathSeparator c then []
      else if c = '.' then path.drop i
      else extLoop path i

/-- The library function `filepath.Ext`. -/
def Ext (path : String) : String :=
  String.mk (extLoop path.toList path.toList.length)

/-- The final element of a path: what follows its last separator. -/
def lastElement (path : List Char) : List Char :=
  (path.reverse.takeWhile (fun c => !IsPathSeparator c)).reverse

/-- The extension as documented: the suffix of the final path element beginning at its
last dot, empty when that element has no dot. -/
def extension (path : String) : String :=
  let e := lastElement path.toList
  if '.' ∈ e then String.mk ('.' :: (e.reverse.takeWhile (fun c => c != '.')).reverse)
  else ""

/-- The error of `DetectFormat`. -/
inductive FormatError where
  | unsupportedExtension (ext : String) : FormatError
  deriving DecidableEq, Repr

/-- The message of the error, as formatted by `fmt.Errorf`. -/
def FormatError.Error : FormatError → String
  | .unsupportedExtension ext => "unsupported file extension: " ++ ext

/-- The function `DetectFormat`: the format and the error it returns. -/
def DetectFormat (filePath : String) : Format × Option FormatError :=
  let ext := Ext filePath
  if ext = ".csv" then (FormatCSV, none)
  else if ext = ".json" then (FormatJSON, none)
  else ("", some (.unsupportedExtension ext))

/-! ## `SchemaValidator.ValidateTrait` (`pkg/schema/types.go`)

The method talks to two libraries: `encoding/json` (`json.Marshal`) and the schema
compiler held in the validator's `compiler` field (`AddResource`, `Compile`, and
`Validate` on the compiled schema). They are parameters of the embedding, and every call
the method makes on them is recorded in a call log. -/

/-- The map `traitSchema` built by `ValidateTrait`; an absent key is `none`. -/
structure TraitSchema where
  schema : String
  type_ : String
  format : String
  title : String
  maxLength : Option Int
  properties : Option (List (String × TraitField))

/-- The builtin `len` on a map. -/
def mapLen {α : Type} : Option (List (String × α)) → Nat
  | none => 0
  | some kvs => kvs.length

/-- The statements of `ValidateTrait` that fill `traitSchema` for a trait. -/
def synthesise (s : Schema) (trait : TraitField) : TraitSchema :=
  { schema := s.Schema
    type_ := trait.Type_
    format := trait.Format
    title := trait.Title
    maxLength := if trait.MaxLength > 0 then some trait.MaxLength else none
    properties := if mapLen trait.Properties > 0 then trait.Properties else none }

/-- How a call of the compiler's `AddResource` ends: it returns nil, it returns an error,
or it panics (the library panics on a URL that contains the fragment mark). -/
inductive Registration (C : Type) where
  | ok (compiler : C) : Registration C
  | failed (compiler : C) (err : String) : Registration C
  | panicked : Registration C

/-- The libraries `ValidateTrait` calls: `C` is the state of the compiler, `K` a compiled
schema, `V` the type of trait values, `B` the type of marshalled bytes. A failure carries
the message of the library. -/
structure Evaluator (C K V B : Type) where
  Marshal : TraitSchema → Except String B
  AddResource : C → String → B → Registration C
  Compile : C → String → C × Except String K
  MarshalValue : V → Except String B
  Validate : K → B → Option String

/-- A call made on a library, with the arguments that identify it. -/
inductive LibraryCall (B : Type) where
  | MarshalSchema : LibraryCall B
  | AddResource (url : String) (doc : B) : LibraryCall B
  | Compile (url : String) : LibraryCall B
  | MarshalValue : LibraryCall B
  | Validate (doc : B) : LibraryCall B

/-- Errors returned by `ValidateTrait`, one constructor per `fmt.Errorf` site. -/
inductive TraitError where
  | traitNotFound (name : String) : TraitError
  | marshalSchemaFailed (err : String) : TraitError
  | addSchemaFailed (err : String) : TraitError
  | compileFailed (err : String) : TraitError
  | marshalValueFailed (err : String) : TraitError
  | validationFailed (name err : String) : TraitError
  deriving DecidableEq, Repr

/-- The message of each error, as formatted by `fmt.Errorf`. -/
def TraitError.Error : TraitError → String
  | .traitNotFound name => "trait \x27" ++ name ++ "\x27 not found in schema"
  | .marshalSchemaFailed err => "failed to marshal trait schema: " ++ err
  | .addSchemaFailed err => "failed to add schema to compiler: " ++ err
  | .compileFailed err => "failed to compile schema: " ++ err
  | .marshalValueFailed err => "failed to marshal value: " ++ err
  | .validationFailed name err => "validation failed for trait \x27" ++ name ++ "\x27: " ++ err

/-- What one run of `ValidateTrait` leaves behind: the error it returns (`none` is nil),
the compiler afterwards, the library calls made, in order, and whether the run ended in a
panic of the library instead of returning (then `err` is `none`: nothing was returned). -/
structure TraitOutcome (C B : Type) where
  err : Option TraitError
  compiler : C
  calls : List (LibraryCall B)
  panicked : Bool

/-- The method `ValidateTrait` of a validator over schema `s` holding `compiler`. -/
def ValidateTrait {C K V B : Type} (lib : Evaluator C K V B) (s : Schema) (compiler : C)
    (name : String) (value : V) : TraitOutcome C B :=
  match mapLookup s.Properties.Traits.Properties name with
  | none => ⟨some (.traitNotFound name), compiler, [], false⟩
  | some trait =>
    match lib.Marshal (synthesise s trait) with
    | .error e => ⟨some (.marshalSchemaFailed e), compiler, [.MarshalSchema], false⟩
    | .ok schemaBytes =>
      match lib.AddResource compiler name schemaBytes with
      | .panicked => ⟨none, compiler, [.MarshalSchema, .AddResource name schemaBytes], true⟩
      | .failed c1 e =>
        ⟨some (.addSchemaFailed e), c1, [.MarshalSchema, .AddResource name schemaBytes],
          false⟩
      | .ok c1 =>
        match lib.Compile c1 name with
        | (c2, .error e) =>
          ⟨some (.compileFailed e), c2,
            [.MarshalSchema, .AddResource name schemaBytes, .Compile name], false⟩
        | (c2, .ok compiledSchema) =>
          match lib.MarshalValue value with
          | .error e =>
            ⟨some (.marshalValueFailed e), c2,
              [.MarshalSchema, .AddResource name schemaBytes, .Compile name, .MarshalValue],
              false⟩
          | .ok valueBytes =>
            match lib.Validate compiledSchema valueBytes with
            | some e =>
              ⟨some (.validationFailed name e), c2,
                [.MarshalSchema, .AddResource name schemaBytes, .Compile name,
                  .MarshalValue, .Validate valueBytes], false⟩
            | none =>
              ⟨none, c2,
                [.MarshalSchema, .AddResource name schemaBytes, .Compile name,
                  .MarshalValue, .Validate valueBytes], false⟩

/-! ### A model of the schema compiler with a compilation-count probe

The compiler of `github.com/ory/jsonschema/v3` keeps a table of resources keyed by URL.
`AddResource` decodes the document and binds the URL to a new resource, whose table of
compiled schemas is empty; `Compile` picks the draft from the `$schema` of the document,
and compiles the root schema of a resource only if that resource does not hold it yet.
Marshalled bytes are stood for by the JSON value they encode. The check of a document
against the meta-schema is limited to the keywords `ValidateTrait` can emit, and the
validation of a value to `type` and `maxLength`; formats are not checked. -/

mutual

/-- The JSON value that `json.Marshal` writes for a `TraitField`, following its field tags:
`type` always, the others unless empty. -/
def encodeTraitField : TraitField → Json
  | .mk type_ format title maxLength properties credentials =>
    .obj ([("type", Json.str type_)]
      ++ (if format = "" then [] else [("format", Json.str format)])
      ++ (if title = "" then [] else [("title", Json.str title)])
      ++ (if maxLength = 0 then [] else [("maxLength", Json.num (toString maxLength))])
      ++ (match properties with
          | none => []
          | some [] => []
          | some (kv :: kvs) => [("properties", Json.obj (encodeTraitFields (kv :: kvs)))])
      ++ (match credentials with
          | none => []
          | some [] => []
          | some (kv :: kvs) => [("ory.sh/kratos", Json.obj (kv :: kvs))]))

/-- The members that `json.Marshal` writes for a map of trait fields. -/
def encodeTraitFields : List (String × TraitField) → List (String × Json)
  | [] => []
  | (name, field) :: rest => (name, encodeTraitField field) :: encodeTraitFields rest

end

/-- The JSON value that `json.Marshal` writes for the map `traitSchema`, keys sorted. -/
def encodeTraitSchema (t : TraitSchema) : Json :=
  .obj ([("$schema", Json.str t.schema), ("format", Json.str t.format)]
    ++ (match t.maxLength with
        | none => []
        | some n => [("maxLength", Json.num (toString n))])
    ++ (match t.properties with
        | none => []
        | some kvs => [("properties", Json.obj (encodeTraitFields kvs))])
    ++ [("title", Json.str t.title), ("type", Json.str t.type_)])

/-- The `$schema` values for which the compiler knows a draft. -/
def knownDrafts : List String :=
  ["http://json-schema.org/schema#", "http://json-schema.org/draft-07/schema#",
   "http://json-schema.org/draft-06/schema#", "http://json-schema.org/draft-04/schema#"]

/-- The type names the meta-schemas admit for the keyword `type`. -/
def simpleTypes : List String :=
  ["array", "boolean", "integer", "null", "number", "object", "string"]

mutual

/-- Whether a document is a schema for the meta-schema, as far as the keywords `type`,
`maxLength` and `properties` go. -/
def schemaOk : Json → Bool
  | .obj members => membersOk members
  | _ => false

/-- The check of `schemaOk` on the members of a schema object. -/
def membersOk : List (String × Json) → Bool
  | [] => true
  | (keyword, v) :: rest =>
    (if keyword = "type" then
        match v with
        | .str t => decide (t ∈ simpleTypes)
        | _ => false
      else if keyword = "maxLength" then
        match v with
        | .num lit => !(lit.toList.head? == some '-')
        | _ => false
      else if keyword = "properties" then
        match v with
        | .obj properties => propertiesOk properties
        | _ => false
      else true)
    && membersOk rest

/-- The check of `schemaOk` on every schema of a `properties` object. -/
def propertiesOk : List (String × Json) → Bool
  | [] => true
  | (_, v) :: rest => schemaOk v && propertiesOk rest

end

/-- The member of a JSON object under a key. -/
def Json.member (key : String) : Json → Option Json
  | .obj members => members.lookup key
  | _ => none

/-- A resource of the compiler: its decoded document and whether it holds its compiled
root schema. -/
structure ProbeResource where
  doc : Json
  compiled : Bool

/-- The compiler with its probe: the resource table keyed by URL, and the counts of the
registrations and of the compilations done so far. -/
structure ProbeCompiler where
  resources : List (String × ProbeResource)
  registrations : Nat
  compilations : Nat

/-- The method `AddResource`: panics on a URL with a fragment mark; otherwise binds the URL
to a new resource without compiled schemas, replacing what was registered under it. -/
def ProbeCompiler.AddResource (c : ProbeCompiler) (url : String) (doc : Json) :
    Registration ProbeCompiler :=
  if '#' ∈ url.toList then .panicked
  else .ok { c with resources := mapSet c.resources url ⟨doc, false⟩,
                    registrations := c.registrations + 1 }

/-- The method `Compile` on a URL without fragment: an unregistered URL fails (loading it
is left out); a `$schema` without known draft fails; a resource that holds its compiled
root schema returns it; otherwise the document is checked and compiled, which counts. -/
def ProbeCompiler.Compile (c : ProbeCompiler) (url : String) :
    ProbeCompiler × Except String Json :=
  match c.resources.lookup url with
  | none => (c, .error "resource not registered")
  | some r =>
    match r.doc.member "$schema" with
    | some (.str dialect) =>
      if dialect ∈ knownDrafts then
        if r.compiled then (c, .ok r.doc)
        else if schemaOk r.doc then
          ({ c with resources := mapSet c.resources url ⟨r.doc, true⟩,
                    compilations := c.compilations + 1 }, .ok r.doc)
        else (c, .error "schema does not validate against the meta-schema")
      else (c, .error ("unknown $schema \"" ++ dialect ++ "\""))
    | some _ => (c, .error "unknown $schema")
    | none =>
      if r.compiled then (c, .ok r.doc)
      else if schemaOk r.doc then
        ({ c with resources := mapSet c.resources url ⟨r.doc, true⟩,
                  compilations := c.compilations + 1 }, .ok r.doc)
      else (c, .error "schema does not validate against the meta-schema")

/-- Whether a value is an instance of a type name. -/
def instanceOf (typeName : String) : Json → Bool
  | .null => typeName = "null"
  | .bool _ => typeName = "boolean"
  | .str _ => typeName = "string"
  | .arr _ => typeName = "array"
  | .obj _ => typeName = "object"
  | .num lit =>
    typeName = "number"
      || (typeName = "integer" && lit.toList.all (fun c => c.isDigit || c == '-'))

/-- The method `Validate` of a compiled schema, for the keywords `type` and `maxLength`. -/
def probeValidate (schema value : Json) : Option String :=
  match schema.member "type" with
  | some (.str typeName) =>
    if !(instanceOf typeName value) then some ("expected " ++ typeName)
    else
      match schema.member "maxLength", value with
      | some (.num lit), .str text =>
        if lit.toNat?.getD 0 < text.length then some ("length must be <= " ++ lit)
        else none
      | _, _ => none
  | _ => none

/-- The libraries over the probe compiler; trait values are given as JSON values. -/
def probeEvaluator : Evaluator ProbeCompiler Json Json Json :=
  { Marshal := fun t => .ok (encodeTraitSchema t)
    AddResource := ProbeCompiler.AddResource
    Compile := ProbeCompiler.Compile
    MarshalValue := fun v => .ok v
    Validate := probeValidate }

/-- The compiler of a new validator: nothing registered, nothing compiled. -/
def newProbeCompiler : ProbeCompiler := ⟨[], 0, 0⟩

/-- A schema of the draft-07 dialect declaring the traits `email` and `name`, requiring
`email`. -/
def draft7Schema : Schema :=
  { ID := "", Schema := "http://json-schema.org/draft-07/schema#", Title := "Person",
    Type_ := "object",
    Properties := { Traits :=
      { Type_ := "object",
        Properties := some [("email", plainString), ("name", plainString)],
        Required := ["email"], AdditionalProperties := false } } }

/-- A first `ValidateTrait` call for `email` on a new validator over `draft7Schema`. -/
def firstEmailCall : TraitOutcome ProbeCompiler Json :=
  ValidateTrait probeEvaluator draft7Schema newProbeCompiler "email" (.str "a@b.com")

/-- A second call for `email` on the same validator, after `firstEmailCall`. -/
def secondEmailCall : TraitOutcome ProbeCompiler Json :=
  ValidateTrait probeEvaluator draft7Schema firstEmailCall.compiler "email" (.str "c@d.com")

/-- The document `ValidateTrait` synthesises for `email` of `draft7Schema`. -/
def emailDocument : Json :=
  .obj [("$schema", .str "http://json-schema.org/draft-07/schema#"), ("format", .str ""),
        ("title", .str ""), ("type", .str "string")]

/-! ## `Reader.getJSONHeaders` (`pkg/reader/reader.go`) over `encoding/json` -/

/-- Errors of the library `encoding/json` met by the reader. -/
inductive JsonError where
  | eof : JsonError
  | unexpectedEOF : JsonError
  | malformed (msg : String) : JsonError
  | unmarshalType (value : String) : JsonError
  deriving DecidableEq, Repr

/-- The library predicate `isSpace` of the JSON scanner. -/
def isSpace (c : Char) : Bool := c == ' ' || c == '\t' || c == '\r' || c == '\n'

/-- Value of a hexadecimal digit. -/
def hexVal (c : Char) : Option Nat :=
  if '0' ≤ c ∧ c ≤ '9' then some (c.toNat - '0'.toNat)
  else if 'a' ≤ c ∧ c ≤ 'f' then some (c.toNat - 'a'.toNat + 10)
  else if 'A' ≤ c ∧ c ≤ 'F' then some (c.toNat - 'A'.toNat + 10)
  else none

/-- The library helper `getu4` on the four characters after a `\u`. -/
def getu4 : List Char → Option Nat
  | a :: b :: c :: d :: _ =>
    match hexVal a, hexVal b, hexVal c, hexVal d with
    | some x, some y, some z, some w => some (((x * 16 + y) * 16 + z) * 16 + w)
    | _, _, _, _ => none
  | _ => none

/-- Scans a string literal after its opening quote and unquotes it: the text and the input
left after the closing quote. -/
def scanString : Nat → List Char → List Char → Except JsonError (String × List Char)
  | 0, _, _ => .error .unexpectedEOF
  | _ + 1, [], _ => .error .unexpectedEOF
  | fuel + 1, c :: rest, acc =>
    if c = '"' then .ok (String.mk acc.reverse, rest)
    else if c = '\\' then
      match rest with
      | [] => .error .unexpectedEOF
      | e :: rest1 =>
        if e = '"' then scanString fuel rest1 ('"' :: acc)
        else if e = '\\' then scanString fuel rest1 ('\\' :: acc)
        else if e = '/' then scanString fuel rest1 ('/' :: acc)
        else if e = 'b' then scanString fuel rest1 (Char.ofNat 8 :: acc)
        else if e = 'f' then scanString fuel rest1 (Char.ofNat 12 :: acc)
        else if e = 'n' then scanString fuel rest1 ('\n' :: acc)
        else if e = 'r' then scanString fuel rest1 ('\r' :: acc)
        else if e = 't' then scanString fuel rest1 ('\t' :: acc)
        else if e = 'u' then
          match getu4 rest1 with
          | none =>
            if rest1.length < 4 then .error .unexpectedEOF
            else .error (.malformed "invalid character in \\u hexadecimal character escape")
          | some rr =>
            let rest2 := rest1.drop 4
            if 0xD800 ≤ rr ∧ rr < 0xE000 then
              match rest2 with
              | '\\' :: 'u' :: rest3 =>
                match getu4 rest3 with
                | some rr1 =>
                  if rr < 0xDC00 ∧ 0xDC00 ≤ rr1 ∧ rr1 < 0xE000 then
                    scanString fuel (rest3.drop 4)
                      (Char.ofNat ((rr - 0xD800) * 1024 + (rr1 - 0xDC00) + 0x10000) :: acc)
                  else scanString fuel rest2 (Char.ofNat 0xFFFD :: acc)
                | none => scanString fuel rest2 (Char.ofNat 0xFFFD :: acc)
              | _ => scanString fuel rest2 (Char.ofNat 0xFFFD :: acc)
            else scanString fuel rest2 (Char.ofNat rr :: acc)
        else .error (.malformed "invalid character in string escape code")
    else if c.toNat < 32 then .error (.malformed "invalid character in string literal")
    else scanString fuel rest (c :: acc)

/-- Splits off the leading decimal digits. -/
def scanDigits (input : List Char) : List Char × List Char :=
  (input.takeWhile Char.isDigit, input.dropWhile Char.isDigit)

/-- Scans the exponent of a number, after the part `lit` already read. -/
def scanExponent (lit input : List Char) : Except JsonError (List Char × List Char) :=
  match input with
  | e :: rest =>
    if e = 'e' ∨ e = 'E' then
      let (sign, rest1) :=
        match rest with
        | s :: r => if s = '+' ∨ s = '-' then ([s], r) else ([], rest)
        | [] => ([], rest)
      let (ds, rest2) := scanDigits rest1
      if ds = [] then
        if rest2 = [] then .error .unexpectedEOF
        else .error (.malformed "invalid character in exponent of numeric literal")
      else .ok (lit ++ e :: sign ++ ds, rest2)
    else .ok (lit, input)
  | [] => .ok (lit, input)

/-- Scans the fraction and exponent of a number, after the integer part `lit`. -/
def scanFraction (lit input : List Char) : Except JsonError (List Char × List Char) :=
  match input with
  | '.' :: rest =>
    let (ds, rest1) := scanDigits rest
    if ds = [] then
      if rest1 = [] then .error .unexpectedEOF
      else .error (.malformed "invalid character after decimal point in numeric literal")
    else scanExponent (lit ++ '.' :: ds) rest1
  | _ => scanExponent lit input

/-- Scans a number whose sign, if any, is `sign`; `input` starts at the first digit. -/
def scanNumber (sign input : List Char) : Except JsonError (List Char × List Char) :=
  match input with
  | [] => .error .unexpectedEOF
  | d :: rest =>
    if d = '0' then scanFraction (sign ++ [d]) rest
    else if d.isDigit then
      let (ds, rest1) := scanDigits rest
      scanFraction (sign ++ d :: ds) rest1
    else .error (.malformed "invalid character in numeric literal")

/-- Scans the rest of a literal name such as `true`. -/
def scanLiteral (name : List Char) (value : Json) (input : List Char) :
    Except JsonError (Json × List Char) :=
  if name.isPrefixOf input then .ok (value, input.drop name.length)
  else if input.isPrefixOf name then .error .unexpectedEOF
  else .error (.malformed "invalid character in literal")

/-- The constant `maxNestingDepth` of the JSON scanner. -/
def maxNestingDepth : Nat := 10000

mutual

/-- Reads one JSON value from the input, as `Decoder.readValue` followed by the parsing of
what was read does: the value, numbers kept as their literals, and the input left after
it. Leading white space is skipped and nothing after the value is examined. `depth` is
the number of arrays and objects open around the value; the scanner refuses to open more
than `maxNestingDepth`. -/
def scanValue : Nat → Nat → List Char → Except JsonError (Json × List Char)
  | 0, _, _ => .error .unexpectedEOF
  | fuel + 1, depth, input =>
    match input.dropWhile isSpace with
    | [] => .error .unexpectedEOF
    | c :: rest =>
      if c = '{' then
        if depth + 1 > maxNestingDepth then .error (.malformed "exceeded max depth")
        else
          match rest.dropWhile isSpace with
          | [] => .error .unexpectedEOF
          | c1 :: rest1 =>
            if c1 = '}' then .ok (.obj [], rest1)
            else scanMembers fuel (depth + 1) (c1 :: rest1) []
      else if c = '[' then
        if depth + 1 > maxNestingDepth then .error (.malformed "exceeded max depth")
        else
          match rest.dropWhile isSpace with
          | [] => .error .unexpectedEOF
          | c1 :: rest1 =>
            if c1 = ']' then .ok (.arr [], rest1)
            else scanElements fuel (depth + 1) (c1 :: rest1) []
      else if c = '"' then
        match scanString rest.length rest [] with
        | .error e => .error e
        | .ok (str, rest1) => .ok (.str str, rest1)
      else if c = '-' then
        match scanNumber [c] rest with
        | .error e => .error e
        | .ok (lit, rest1) => .ok (.num (String.mk lit), rest1)
      else if c.isDigit then
        match scanNumber [] (c :: rest) with
        | .error e => .error e
        | .ok (lit, rest1) => .ok (.num (String.mk lit), rest1)
      else if c = 't' then scanLiteral ['r', 'u', 'e'] (.bool true) rest
      else if c = 'f' then scanLiteral ['a', 'l', 's', 'e'] (.bool false) rest
      else if c = 'n' then scanLiteral ['u', 'l', 'l'] .null rest
      else .error (.malformed "invalid character looking for beginning of value")

/-- Reads the members of an object after its opening brace; `input` starts at a key. -/
def scanMembers : Nat → Nat → List Char → List (String × Json) →
    Except JsonError (Json × List Char)
  | 0, _, _, _ => .error .unexpectedEOF
  | fuel + 1, depth, input, acc =>
    match input.dropWhile isSpace with
    | [] => .error .unexpectedEOF
    | q :: rest =>
      if q = '"' then
        match scanString rest.length rest [] with
        | .error e => .error e
        | .ok (key, rest1) =>
          match rest1.dropWhile isSpace with
          | [] => .error .unexpectedEOF
          | colon :: rest2 =>
            if colon = ':' then
              match scanValue fuel depth rest2 with
              | .error e => .error e
              | .ok (v, rest3) =>
                match rest3.dropWhile isSpace with
                | [] => .error .unexpectedEOF
                | sep :: rest4 =>
                  if sep = ',' then scanMembers fuel depth rest4 (acc ++ [(key, v)])
                  else if sep = '}' then .ok (.obj (acc ++ [(key, v)]), rest4)
                  else .error (.malformed "invalid character after object key:value pair")
            else .error (.malformed "invalid character after object key")
      else .error (.malformed "invalid character looking for beginning of object key string")

/-- Reads the elements of an array after its opening bracket. -/
def scanElements : Nat → Nat → List Char → List Json →
    Except JsonError (Json × List Char)
  | 0, _, _, _ => .error .unexpectedEOF
  | fuel + 1, depth, input, acc =>
    match scanValue fuel depth input with
    | .error e => .error e
    | .ok (v, rest) =>
      match rest.dropWhile isSpace with
      | [] => .error .unexpectedEOF
      | sep :: rest1 =>
        if sep = ',' then scanElements fuel depth rest1 (acc ++ [v])
        else if sep = ']' then .ok (.arr (acc ++ [v]), rest1)
        else .error (.malformed "invalid character after array element")

end

/-- The token states of `Decoder` (`encoding/json`, `stream.go`). -/
inductive TokenState where
  | tokenTopValue | tokenArrayStart | tokenArrayValue | tokenArrayComma
  | tokenObjectStart | tokenObjectKey | tokenObjectColon | tokenObjectValue
  | tokenObjectComma
  deriving DecidableEq, Repr

/-- The library type `json.Decoder`: the unread input, the token state and the stack of
enclosing token states (top first). -/
structure Decoder where
  input : List Char
  tokenState : TokenState
  tokenStack : List TokenState
  deriving Repr

/-- The library function `json.NewDecoder` on a file with the given content. -/
def NewDecoder (file : String) : Decoder := ⟨file.toList, .tokenTopValue, []⟩

namespace Decoder

/-- The method `peek`: skips white space and shows the next character. -/
def peek (dec : Decoder) : Except JsonError (Char × Decoder) :=
  match dec.input.dropWhile isSpace with
  | [] => .error .eof
  | c :: rest => .ok (c, { dec with input := c :: rest })

/-- The method `tokenPrepareForDecode`. -/
def tokenPrepareForDecode (dec : Decoder) : Except JsonError Decoder :=
  match dec.tokenState with
  | .tokenArrayComma =>
    match dec.peek with
    | .error e => .error e
    | .ok (c, dec1) =>
      if c ≠ ',' then .error (.malformed "expected comma after array element")
      else .ok { dec1 with input := dec1.input.drop 1, tokenState := .tokenArrayValue }
  | .tokenObjectColon =>
    match dec.peek with
    | .error e => .error e
    | .ok (c, dec1) =>
      if c ≠ ':' then .error (.malformed "expected colon after object key")
      else .ok { dec1 with input := dec1.input.drop 1, tokenState := .tokenObjectValue }
  | _ => .ok dec

/-- The method `tokenValueAllowed`. -/
def tokenValueAllowed (dec : Decoder) : Bool :=
  match dec.tokenState with
  | .tokenTopValue | .tokenArrayStart | .tokenArrayValue | .tokenObjectValue => true
  | _ => false

/-- The method `tokenValueEnd`. -/
def tokenValueEnd (dec : Decoder) : Decoder :=
  match dec.tokenState with
  | .tokenArrayStart | .tokenArrayValue => { dec with tokenState := .tokenArrayComma }
  | .tokenObjectValue => { dec with tokenState := .tokenObjectComma }
  | _ => dec

/-- The method `Decode`, with the decoding into the target type as `unmarshal`. -/
def Decode {α : Type} (unmarshal : Json → Except JsonError α) (dec : Decoder) :
    Except JsonError (α × Decoder) :=
  match dec.tokenPrepareForDecode with
  | .error e => .error e
  | .ok dec1 =>
    if !dec1.tokenValueAllowed then .error (.malformed "not at beginning of value")
    else if dec1.input.dropWhile isSpace = [] then .error .eof
    else
      match scanValue (dec1.input.length + 1) 0 dec1.input with
      | .error e => .error e
      | .ok (v, rest) =>
        match unmarshal v with
        | .error e => .error e
        | .ok x => .ok (x, ({ dec1 with input := rest }).tokenValueEnd)

end Decoder

/-- The value of a run of decimal digits. -/
def digitsValue (digits : List Char) : Nat :=
  digits.foldl (fun n c => n * 10 + (c.toNat - '0'.toNat)) 0

/-- Whether the conversion of a JSON number literal to a `float64` overflows, which is when
its magnitude reaches `2^1024 - 2^970`, the least value that rounds to infinity. With
mantissa `m` (the digits without the point) and decimal exponent `e` the comparison is
made on naturals; exponents for which it is settled at sight are not raised. -/
def overflowsFloat64 (lit : String) : Bool :=
  let body := match lit.toList with
    | '-' :: r => r
    | r => r
  let intDigits := body.takeWhile Char.isDigit
  let afterInt := body.dropWhile Char.isDigit
  let fracDigits := match afterInt with
    | '.' :: r => r.takeWhile Char.isDigit
    | _ => []
  let afterFrac := match afterInt with
    | '.' :: r => r.dropWhile Char.isDigit
    | _ => afterInt
  let exponent : Int := match afterFrac with
    | _ :: '-' :: ds => - (digitsValue ds : Int)
    | _ :: '+' :: ds => (digitsValue ds : Int)
    | _ :: ds => (digitsValue ds : Int)
    | [] => 0
  let mantissa := digitsValue (intDigits ++ fracDigits)
  let exp10 : Int := exponent - (fracDigits.length : Int)
  let limit : Nat := 2 ^ 1024 - 2 ^ 970
  if mantissa = 0 then false
  else if 0 ≤ exp10 then
    if 400 < exp10 then true else decide (limit ≤ mantissa * 10 ^ exp10.toNat)
  else if ((intDigits ++ fracDigits).length : Int) ≤ -exp10 then false
  else decide (limit * 10 ^ (-exp10).toNat ≤ mantissa)

mutual

/-- The first number literal of a value, in document order, that does not fit a `float64`:
decoding into an `any` converts every number and reports the first failure. -/
def firstOverflow : Json → Option String
  | .num lit => if overflowsFloat64 lit then some lit else none
  | .arr xs => firstOverflowIn xs
  | .obj kvs => firstOverflowAmong kvs
  | _ => none

/-- The search of `firstOverflow` through the elements of an array. -/
def firstOverflowIn : List Json → Option String
  | [] => none
  | x :: rest =>
    match firstOverflow x with
    | some lit => some lit
    | none => firstOverflowIn rest

/-- The search of `firstOverflow` through the members of an object. -/
def firstOverflowAmong : List (String × Json) → Option String
  | [] => none
  | (_, x) :: rest =>
    match firstOverflow x with
    | some lit => some lit
    | none => firstOverflowAmong rest

end

/-- Decoding into an `any`; a number that does not fit a `float64` is a type error. -/
def unmarshalAny (v : Json) : Except JsonError Json :=
  match firstOverflow v with
  | some lit => .error (.unmarshalType ("number " ++ lit))
  | none => .ok v

/-- Decoding into a `string`. -/
def unmarshalString : Json → Except JsonError String
  | .str s => .ok s
  | .null => .ok ""
  | .bool _ => .error (.unmarshalType "bool")
  | .num _ => .error (.unmarshalType "number")
  | .arr _ => .error (.unmarshalType "array")
  | .obj _ => .error (.unmarshalType "object")

/-- Decoding into a nil `map[string]interface{}`: an object fills a new map, a later
member replacing an earlier one with the same key, each member decoded into an `any`, so
that a number that does not fit a `float64` is a type error; `null` leaves the map nil. -/
def unmarshalMap : Json → Except JsonError (Option (List (String × Json)))
  | .obj kvs =>
    match firstOverflowAmong kvs with
    | some lit => .error (.unmarshalType ("number " ++ lit))
    | none => .ok (some (kvs.foldl (fun m kv => mapSet m kv.1 kv.2) []))
  | .null => .ok none
  | .bool _ => .error (.unmarshalType "bool")
  | .num _ => .error (.unmarshalType "number")
  | .str _ => .error (.unmarshalType "string")
  | .arr _ => .error (.unmarshalType "array")

/-- The library type `json.Token`: a delimiter or a basic value. -/
inductive Token where
  | Delim (c : Char) : Token
  | value (v : Json) : Token
  deriving Repr

/-- The loop of the method `Token`; the counter bounds its `continue`s. -/
def Decoder.tokenLoop : Nat → Decoder → Except JsonError (Token × Decoder)
  | 0, _ => .error .unexpectedEOF
  | fuel + 1, dec =>
    match dec.peek with
    | .error e => .error e
    | .ok (c, dec) =>
      if c = '[' then
        if !dec.tokenValueAllowed then .error (.malformed "invalid character")
        else .ok (.Delim '[', { input := dec.input.drop 1, tokenState := .tokenArrayStart,
                                tokenStack := dec.tokenState :: dec.tokenStack })
      else if c = ']' then
        if dec.tokenState ≠ .tokenArrayStart ∧ dec.tokenState ≠ .tokenArrayComma then
          .error (.malformed "invalid character")
        else
          match dec.tokenStack with
          | [] => .error (.malformed "invalid character")
          | top :: stack =>
            .ok (.Delim ']', (Decoder.mk (dec.input.drop 1) top stack).tokenValueEnd)
      else if c = '{' then
        if !dec.tokenValueAllowed then .error (.malformed "invalid character")
        else .ok (.Delim '{', { input := dec.input.drop 1, tokenState := .tokenObjectStart,
                                tokenStack := dec.tokenState :: dec.tokenStack })
      else if c = '}' then
        if dec.tokenState ≠ .tokenObjectStart ∧ dec.tokenState ≠ .tokenObjectComma then
          .error (.malformed "invalid character")
        else
          match dec.tokenStack with
          | [] => .error (.malformed "invalid character")
          | top :: stack =>
            .ok (.Delim '}', (Decoder.mk (dec.input.drop 1) top stack).tokenValueEnd)
      else if c = ':' then
        if dec.tokenState ≠ .tokenObjectColon then .error (.malformed "invalid character")
        else tokenLoop fuel { dec with input := dec.input.drop 1,
                                       tokenState := .tokenObjectValue }
      else if c = ',' then
        if dec.tokenState = .tokenArrayComma then
          tokenLoop fuel { dec with input := dec.input.drop 1, tokenState := .tokenArrayValue }
        else if dec.tokenState = .tokenObjectComma then
          tokenLoop fuel { dec with input := dec.input.drop 1, tokenState := .tokenObjectKey }
        else .error (.malformed "invalid character")
      else if c = '"' ∧ (dec.tokenState = .tokenObjectStart
          ∨ dec.tokenState = .tokenObjectKey) then
        match Decoder.Decode unmarshalString { dec with tokenState := .tokenTopValue } with
        | .error e => .error e
        | .ok (x, dec1) => .ok (.value (.str x), { dec1 with tokenState := .tokenObjectColon })
      else
        if !dec.tokenValueAllowed then .error (.malformed "invalid character")
        else
          match Decoder.Decode unmarshalAny dec with
          | .error e => .error e
          | .ok (x, dec1) => .ok (.value x, dec1)

/-- The method `Token`. -/
def Decoder.Token (dec : Decoder) : Except JsonError (Token × Decoder) :=
  Decoder.tokenLoop (dec.input.length + 1) dec

/-- Errors returned by `getJSONHeaders`, one constructor per `fmt.Errorf` site. -/
inductive HeadersError where
  | readTokenFailed (err : JsonError) : HeadersError
  | decodeFirstObjectFailed (err : JsonError) : HeadersError
  | decodeObjectFailed (err : JsonError) : HeadersError
  | invalidFormat : HeadersError
  deriving DecidableEq, Repr

/-- The method `getJSONHeaders` on a file with the given content. The keys come out in the
order of the map entries, which stands for the unspecified order of `range`. -/
def getJSONHeaders (file : String) : Except HeadersError (List String) :=
  let decoder := NewDecoder file
  match decoder.Token with
  | .error err => .error (.readTokenFailed err)
  | .ok (token, decoder) =>
    match token with
    | .Delim c =>
      if c = '[' then
        match Decoder.Decode unmarshalMap decoder with
        | .error err => .error (.decodeFirstObjectFailed err)
        | .ok (firstObject, _) => .ok (mapKeys firstObject)
      else if c = '{' then
        match Decoder.Decode unmarshalMap decoder with
        | .error err => .error (.decodeObjectFailed err)
        | .ok (object, _) => .ok (mapKeys object)
      else .error .invalidFormat
    | .value _ => .error .invalidFormat

/-! ## Lemmas on the map primitives and the loops -/

theorem boolGet_nil (h : String) : boolGet [] h = false := rfl

theorem boolGet_cons (k h : String) (b : Bool) (m : List (String × Bool)) :
    boolGet ((k, b) :: m) h = if h = k then b else boolGet m h := by
  unfold boolGet
  by_cases hk : h = k
  · subst hk; simp [List.lookup]
  · have : (h == k) = false := by simpa using hk
    simp [List.lookup, this, hk]

theorem boolGet_mapSet (m : List (String × Bool)) (k h : String) :
    boolGet (mapSet m k true) h = (boolGet m h || decide (h = k)) := by
  induction m with
  | nil => simp [mapSet, boolGet_cons, boolGet_nil]
  | cons kv rest ih =>
    obtain ⟨k', v'⟩ := kv
    by_cases hk : k' = k
    · subst hk
      simp only [mapSet, beq_self_eq_true, if_true, boolGet_cons]
      by_cases hh : h = k' <;> simp [hh]
    · have hb : (k' == k) = false := by simpa using hk
      have hm : mapSet ((k', v') :: rest) k true = (k', v') :: mapSet rest k true := by
        simp [mapSet, hb]
      rw [hm, boolGet_cons, boolGet_cons, ih]
      by_cases hh : h = k'
      · subst hh; simp [hk]
      · simp [hh]

theorem boolGet_foldl (traits : List (String × TraitField)) (acc : List (String × Bool))
    (h : String) :
    boolGet (traits.foldl (fun acc kv => mapSet acc kv.1 true) acc) h
      = (boolGet acc h || decide (h ∈ traits.map Prod.fst)) := by
  induction traits generalizing acc with
  | nil => simp
  | cons kv rest ih =>
    simp only [List.foldl_cons, ih, boolGet_mapSet, List.map_cons, List.mem_cons]
    by_cases h1 : h = kv.1 <;> simp [h1]

theorem boolGet_buildSchemaProps (traits : List (String × TraitField)) (h : String) :
    boolGet (buildSchemaProps traits) h = decide (h ∈ traits.map Prod.fst) := by
  unfold buildSchemaProps
  rw [boolGet_foldl, boolGet_nil, Bool.false_or]

theorem findHeader_eq (required : String) (headers : List String) :
    findHeader required headers = decide (required ∈ headers) := by
  induction headers with
  | nil => simp [findHeader]
  | cons x rest ih =>
    by_cases hx : x = required
    · subst hx; simp [findHeader]
    · have hx2 : ¬ required = x := fun e => hx e.symm
      simp [findHeader, hx, hx2, ih]

theorem checkHeaders_eq (traits : List (String × TraitField)) (headers : List String) :
    checkHeaders (buildSchemaProps traits) headers
      = (headers.find? (fun header => decide (header ∉ traits.map Prod.fst))).map
          HeaderError.headerNotInSchema := by
  induction headers with
  | nil => rfl
  | cons x rest ih =>
    by_cases hx : x ∈ traits.map Prod.fst
    · simp only [checkHeaders, boolGet_buildSchemaProps, ih, List.find?_cons]
      simp [hx]
    · simp only [checkHeaders, boolGet_buildSchemaProps, List.find?_cons]
      simp [hx]

theorem checkRequired_eq (headers required : List String) :
    checkRequired headers required
      = (required.find? (fun name => decide (name ∉ headers))).map
          HeaderError.requiredNotInHeaders := by
  induction required with
  | nil => rfl
  | cons x rest ih =>
    by_cases hx : x ∈ headers
    · simp only [checkRequired, findHeader_eq, ih, List.find?_cons]
      simp [hx]
    · simp only [checkRequired, findHeader_eq, List.find?_cons]
      simp [hx]

/-- With the traits mapping present, the method is the fail-fast reference. -/
theorem ValidateHeaders_some (s : Schema) (traits : List (String × TraitField))
    (hs : s.Properties.Traits.Properties = some traits) (headers : List String) :
    ValidateHeaders s headers
      = validateHeadersRef (traits.map Prod.fst) s.Properties.Traits.Required headers := by
  unfold ValidateHeaders validateHeadersRef
  rw [hs]
  simp only [checkHeaders_eq, checkRequired_eq]
  cases headers.find? (fun header => decide (header ∉ traits.map Prod.fst)) with
  | some x => rfl
  | none =>
    cases s.Properties.Traits.Required.find? (fun name => decide (name ∉ headers)) with
    | some y => rfl
    | none => rfl

theorem ValidateHeaders_nil (s : Schema) (hs : s.Properties.Traits.Properties = none)
    (headers : List String) : ValidateHeaders s headers = some .traitsNotFound := by
  unfold ValidateHeaders
  rw [hs]

/-- Success of the reference: every header declared and every required name present. -/
theorem validateHeadersRef_eq_none (declared required headers : List String) :
    validateHeadersRef declared required headers = none
      ↔ (∀ h ∈ headers, h ∈ declared) ∧ (∀ r ∈ required, r ∈ headers) := by
  unfold validateHeadersRef
  cases h1 : headers.find? (fun header => decide (header ∉ declared)) with
  | some x =>
    have hx := List.find?_some h1
    have hm := List.mem_of_find?_eq_some h1
    simp only [decide_eq_true_eq] at hx
    constructor
    · intro h; cases h
    · intro h; exact absurd (h.1 x hm) hx
  | none =>
    rw [List.find?_eq_none] at h1
    cases h2 : required.find? (fun name => decide (name ∉ headers)) with
    | some y =>
      have hy := List.find?_some h2
      have hm := List.mem_of_find?_eq_some h2
      simp only [decide_eq_true_eq] at hy
      constructor
      · intro h; cases h
      · intro h; exact absurd (h.2 y hm) hy
    | none =>
      rw [List.find?_eq_none] at h2
      simp only [decide_eq_true_eq, not_not] at h1 h2
      exact ⟨fun _ => ⟨h1, h2⟩, fun _ => rfl⟩

/-- Success of the method: traits present, headers declared, required names present. -/
theorem ValidateHeaders_eq_none (s : Schema) (headers : List String) :
    ValidateHeaders s headers = none
      ↔ s.Properties.Traits.Properties.isSome
        ∧ (∀ h ∈ headers, h ∈ mapKeys s.Properties.Traits.Properties)
        ∧ (∀ r ∈ s.Properties.Traits.Required, r ∈ headers) := by
  cases hs : s.Properties.Traits.Properties with
  | none =>
    rw [ValidateHeaders_nil s hs]
    simp
  | some traits =>
    rw [ValidateHeaders_some s traits hs, validateHeadersRef_eq_none]
    simp [mapKeys]

/-! ## `ValidateHeaders`: the claims -/

/-- C1 (as stated, refuted): the schema with a nil traits mapping that requires nothing
satisfies `Required ⊆ keys` and the empty header list has exactly the declared names, yet
`ValidateHeaders` returns the invalid-schema error. -/
theorem c1_nil_traits_counterexample :
    (∀ r ∈ nilTraitsSchema.Properties.Traits.Required,
        r ∈ mapKeys nilTraitsSchema.Properties.Traits.Properties)
    ∧ (∀ h, h ∈ ([] : List String) ↔ h ∈ mapKeys nilTraitsSchema.Properties.Traits.Properties)
    ∧ ValidateHeaders nilTraitsSchema [] = some .traitsNotFound := by
  refine ⟨?_, ?_, rfl⟩
  · intro r hr; cases hr
  · intro h; simp [mapKeys, nilTraitsSchema]

/-- C1 (amended): when the traits mapping is present (not nil), `Required` is a subset of
the declared trait names and the header list has exactly the declared names as its set,
`ValidateHeaders` returns no error. -/
theorem c1_validateHeaders_succeeds (s : Schema) (headers : List String)
    (hp : s.Properties.Traits.Properties.isSome = true)
    (hR : ∀ r ∈ s.Properties.Traits.Required, r ∈ mapKeys s.Properties.Traits.Properties)
    (hF : ∀ h, h ∈ headers ↔ h ∈ mapKeys s.Properties.Traits.Properties) :
    ValidateHeaders s headers = none := by
  rw [ValidateHeaders_eq_none]
  exact ⟨hp, fun h hh => (hF h).1 hh, fun r hr => (hF r).2 (hR r hr)⟩

/-- C1 witness: the schema declaring `email` and `name`, headers in the other order; and the
present-but-empty traits mapping is covered by the same statement. -/
theorem c1_validateHeaders_succeeds_witness :
    emailSchema.Properties.Traits.Properties.isSome = true
    ∧ (∀ r ∈ emailSchema.Properties.Traits.Required,
        r ∈ mapKeys emailSchema.Properties.Traits.Properties)
    ∧ (∀ h, h ∈ ["name", "email"] ↔ h ∈ mapKeys emailSchema.Properties.Traits.Properties)
    ∧ ValidateHeaders emailSchema ["name", "email"] = none
    ∧ ValidateHeaders emptyTraitsSchema [] = none :=
  have h1 : emailSchema.Properties.Traits.Properties.isSome = true := rfl
  have h2 : ∀ r ∈ emailSchema.Properties.Traits.Required,
      r ∈ mapKeys emailSchema.Properties.Traits.Properties := by
    simp [emailSchema, mapKeys]
  have h3 : ∀ h, h ∈ ["name", "email"]
      ↔ h ∈ mapKeys emailSchema.Properties.Traits.Properties := by
    intro h; simp [emailSchema, mapKeys, or_comm]
  ⟨h1, h2, h3, c1_validateHeaders_succeeds emailSchema ["name", "email"] h1 h2 h3,
    c1_validateHeaders_succeeds emptyTraitsSchema [] rfl
      (fun _ hr => nomatch hr) (fun _ => Iff.rfl)⟩

/-- C2 (as stated, refuted): a header list lacking the required `email` is rejected with the
unknown-field error when it carries an undeclared header, and with the invalid-schema
error when the traits mapping is nil; neither is the missing-required-field error. -/
theorem c2_other_error_counterexample :
    ("email" ∈ emailSchema.Properties.Traits.Required ∧ "email" ∉ ["bogus"]
      ∧ ValidateHeaders emailSchema ["bogus"] = some (.headerNotInSchema "bogus"))
    ∧ ("email" ∈ nilTraitsRequiredSchema.Properties.Traits.Required
      ∧ "email" ∉ ([] : List String)
      ∧ ValidateHeaders nilTraitsRequiredSchema [] = some .traitsNotFound) := by
  refine ⟨⟨?_, ?_, ?_⟩, ?_, ?_, ?_⟩
  · simp [emailSchema]
  · simp
  · rw [ValidateHeaders_some emailSchema _ rfl]
    simp [validateHeadersRef]
  · simp [nilTraitsRequiredSchema]
  · simp
  · rfl

/-- C2 (amended): when the traits mapping is present and every header is a declared trait,
a header list lacking at least one name of `Required` is rejected with the
missing-required-field error, and the reported name is a required name absent from the
headers. -/
theorem c2_missing_required (s : Schema) (headers : List String)
    (hp : s.Properties.Traits.Properties.isSome = true)
    (hD : ∀ h ∈ headers, h ∈ mapKeys s.Properties.Traits.Properties)
    (hM : ∃ r ∈ s.Properties.Traits.Required, r ∉ headers) :
    ∃ r, ValidateHeaders s headers = some (.requiredNotInHeaders r)
      ∧ (HeaderError.requiredNotInHeaders r).Error
          = "required field \x27" ++ r ++ "\x27 not found in headers"
      ∧ r ∈ s.Properties.Traits.Required ∧ r ∉ headers := by
  cases hs : s.Properties.Traits.Properties with
  | none => rw [hs] at hp; cases hp
  | some traits =>
    rw [hs] at hD
    rw [ValidateHeaders_some s traits hs]
    unfold validateHeadersRef
    have h1 : headers.find? (fun header => decide (header ∉ traits.map Prod.fst)) = none := by
      rw [List.find?_eq_none]
      intro x hx
      have hx2 : x ∈ traits.map Prod.fst := hD x hx
      rw [decide_eq_true_eq]
      exact not_not.2 hx2
    rw [h1]
    cases h2 : s.Properties.Traits.Required.find? (fun name => decide (name ∉ headers)) with
    | none =>
      rw [List.find?_eq_none] at h2
      obtain ⟨r, hr, hn⟩ := hM
      have := h2 r hr
      simp only [decide_eq_true_eq, not_not] at this
      exact absurd this hn
    | some r =>
      have hr := List.find?_some h2
      simp only [decide_eq_true_eq] at hr
      exact ⟨r, rfl, rfl, List.mem_of_find?_eq_some h2, hr⟩

/-- C2 witness: `email` is required and the headers hold only the declared `name`. -/
theorem c2_missing_required_witness :
    emailSchema.Properties.Traits.Properties.isSome = true
    ∧ (∀ h ∈ ["name"], h ∈ mapKeys emailSchema.Properties.Traits.Properties)
    ∧ (∃ r ∈ emailSchema.Properties.Traits.Required, r ∉ ["name"])
    ∧ ∃ r, ValidateHeaders emailSchema ["name"] = some (.requiredNotInHeaders r)
      ∧ (HeaderError.requiredNotInHeaders r).Error
          = "required field \x27" ++ r ++ "\x27 not found in headers"
      ∧ r ∈ emailSchema.Properties.Traits.Required ∧ r ∉ ["name"] :=
  have h1 : emailSchema.Properties.Traits.Properties.isSome = true := rfl
  have h2 : ∀ h ∈ ["name"], h ∈ mapKeys emailSchema.Properties.Traits.Properties := by
    simp [emailSchema, mapKeys]
  have h3 : ∃ r ∈ emailSchema.Properties.Traits.Required, r ∉ ["name"] := by
    simp [emailSchema]
  ⟨h1, h2, h3, c2_missing_required emailSchema ["name"] h1 h2 h3⟩

/-- C3 (as stated, refuted): with a nil traits mapping the header `email` is not a declared
trait, yet the error is the invalid-schema error, not the unknown-field error. -/
theorem c3_nil_traits_counterexample :
    "email" ∈ ["email"]
    ∧ "email" ∉ mapKeys nilTraitsSchema.Properties.Traits.Properties
    ∧ ValidateHeaders nilTraitsSchema ["email"] = some .traitsNotFound
    ∧ ∀ h, ValidateHeaders nilTraitsSchema ["email"] ≠ some (.headerNotInSchema h) := by
  refine ⟨by simp, by simp [mapKeys, nilTraitsSchema], rfl, ?_⟩
  intro h hc
  rw [ValidateHeaders_nil nilTraitsSchema rfl] at hc
  cases hc

/-- C3 (amended): when the traits mapping is present, a header list containing a name that
is not a declared trait is rejected with the unknown-field error naming a header of the
list that is not a declared trait, wherever it sits in the list. -/
theorem c3_unknown_field (s : Schema) (headers : List String)
    (hp : s.Properties.Traits.Properties.isSome = true)
    (hU : ∃ h ∈ headers, h ∉ mapKeys s.Properties.Traits.Properties) :
    ∃ h, ValidateHeaders s headers = some (.headerNotInSchema h)
      ∧ (HeaderError.headerNotInSchema h).Error = "header \x27" ++ h ++ "\x27 not found in schema"
      ∧ h ∈ headers ∧ h ∉ mapKeys s.Properties.Traits.Properties := by
  cases hs : s.Properties.Traits.Properties with
  | none => rw [hs] at hp; cases hp
  | some traits =>
    rw [hs] at hU
    rw [ValidateHeaders_some s traits hs]
    unfold validateHeadersRef
    cases h1 : headers.find? (fun header => decide (header ∉ traits.map Prod.fst)) with
    | none =>
      rw [List.find?_eq_none] at h1
      obtain ⟨h, hh, hn⟩ := hU
      have := h1 h hh
      simp only [decide_eq_true_eq, not_not] at this
      exact absurd this hn
    | some h =>
      have hh := List.find?_some h1
      simp only [decide_eq_true_eq] at hh
      exact ⟨h, rfl, rfl, List.mem_of_find?_eq_some h1, hh⟩

/-- C3 witness: the undeclared header `bogus` sits last, after two declared ones. -/
theorem c3_unknown_field_witness :
    emailSchema.Properties.Traits.Properties.isSome = true
    ∧ (∃ h ∈ ["email", "name", "bogus"], h ∉ mapKeys emailSchema.Properties.Traits.Properties)
    ∧ ∃ h, ValidateHeaders emailSchema ["email", "name", "bogus"]
          = some (.headerNotInSchema h)
      ∧ (HeaderError.headerNotInSchema h).Error = "header \x27" ++ h ++ "\x27 not found in schema"
      ∧ h ∈ ["email", "name", "bogus"]
      ∧ h ∉ mapKeys emailSchema.Properties.Traits.Properties :=
  have h1 : emailSchema.Properties.Traits.Properties.isSome = true := rfl
  have h2 : ∃ h ∈ ["email", "name", "bogus"],
      h ∉ mapKeys emailSchema.Properties.Traits.Properties := by
    simp [emailSchema, mapKeys]
  ⟨h1, h2, c3_unknown_field emailSchema ["email", "name", "bogus"] h1 h2⟩

/-- C4: `ValidateHeaders` is order-independent: on two header lists that are permutations of
one another it returns an error for one if and only if it returns an error for the other. -/
theorem c4_order_independent (s : Schema) (headers headers' : List String)
    (hperm : headers.Perm headers') :
    (ValidateHeaders s headers).isSome = true ↔ (ValidateHeaders s headers').isSome = true := by
  have key : ValidateHeaders s headers = none ↔ ValidateHeaders s headers' = none := by
    rw [ValidateHeaders_eq_none, ValidateHeaders_eq_none]
    constructor
    · rintro ⟨a, b, c⟩
      exact ⟨a, fun h hh => b h (hperm.mem_iff.2 hh), fun r hr => hperm.mem_iff.1 (c r hr)⟩
    · rintro ⟨a, b, c⟩
      exact ⟨a, fun h hh => b h (hperm.mem_iff.1 hh), fun r hr => hperm.mem_iff.2 (c r hr)⟩
  rw [← not_iff_not]
  simpa using key

/-- C4 witness: two orders of the same headers, both accepted. -/
theorem c4_order_independent_witness :
    ["email", "name"].Perm ["name", "email"]
    ∧ ((ValidateHeaders emailSchema ["email", "name"]).isSome = true
        ↔ (ValidateHeaders emailSchema ["name", "email"]).isSome = true) :=
  ⟨List.Perm.swap "name" "email" [],
    c4_order_independent emailSchema ["email", "name"] ["name", "email"]
      (List.Perm.swap "name" "email" [])⟩

/-- C5: when the traits mapping is present, `ValidateHeaders` equals the fail-fast reference:
the unknown-field error for the first undeclared header in caller order; otherwise the
missing-required-field error for the first absent name in `Required` order; otherwise
success. -/
theorem c5_fail_fast_reference (s : Schema) (headers : List String)
    (hp : s.Properties.Traits.Properties.isSome = true) :
    ValidateHeaders s headers
      = validateHeadersRef (mapKeys s.Properties.Traits.Properties)
          s.Properties.Traits.Required headers := by
  cases hs : s.Properties.Traits.Properties with
  | none => rw [hs] at hp; cases hp
  | some traits =>
    rw [ValidateHeaders_some s traits hs]
    rfl

/-- C5 witness: an undeclared header and a missing required field together; the undeclared
header is the one reported. -/
theorem c5_fail_fast_reference_witness :
    emailSchema.Properties.Traits.Properties.isSome = true
    ∧ ValidateHeaders emailSchema ["name", "bogus", "other"]
        = validateHeadersRef (mapKeys emailSchema.Properties.Traits.Properties)
            emailSchema.Properties.Traits.Required ["name", "bogus", "other"] :=
  ⟨rfl, c5_fail_fast_reference emailSchema ["name", "bogus", "other"] rfl⟩

/-- C10: when `Required` contains a name that is not a declared trait, `ValidateHeaders`
returns an error for every header list. -/
theorem c10_dangling_required_rejects_all (s : Schema)
    (hd : ∃ r ∈ s.Properties.Traits.Required, r ∉ mapKeys s.Properties.Traits.Properties)
    (headers : List String) :
    (ValidateHeaders s headers).isSome = true := by
  cases hv : ValidateHeaders s headers with
  | some e => rfl
  | none =>
    rw [ValidateHeaders_eq_none] at hv
    obtain ⟨r, hr, hn⟩ := hd
    exact absurd (hv.2.1 r (hv.2.2 r hr)) hn

/-- C10 witness: the schema requiring the undeclared `phone`, against headers that list both
the declared and the required name. -/
theorem c10_dangling_required_rejects_all_witness :
    (∃ r ∈ danglingRequiredSchema.Properties.Traits.Required,
        r ∉ mapKeys danglingRequiredSchema.Properties.Traits.Properties)
    ∧ (ValidateHeaders danglingRequiredSchema ["email", "phone"]).isSome = true :=
  have h : ∃ r ∈ danglingRequiredSchema.Properties.Traits.Required,
      r ∉ mapKeys danglingRequiredSchema.Properties.Traits.Properties := by
    simp [danglingRequiredSchema, mapKeys]
  ⟨h, c10_dangling_required_rejects_all danglingRequiredSchema h ["email", "phone"]⟩

/-! ## `DetectFormat`: lemmas and the claim -/

theorem extLoop_append (pre suf : List Char) :
    extLoop (pre ++ suf) pre.length
      = if '.' ∈ pre.reverse.takeWhile (fun c => !IsPathSeparator c) then
          '.' :: (((pre.reverse.takeWhile (fun c => !IsPathSeparator c)).takeWhile
            (fun c => c != '.')).reverse ++ suf)
        else [] := by
  induction pre using List.reverseRecOn generalizing suf with
  | nil => simp [extLoop]
  | append_singleton init c ih =>
    have hget : (init ++ [c] ++ suf)[init.length]? = some c := by
      rw [List.append_assoc, List.getElem?_append_right (le_refl _)]
      simp
    have hdrop : (init ++ [c] ++ suf).drop init.length = c :: suf := by
      simp [List.drop_append_eq_append_drop]
    have hlen : (init ++ [c]).length = init.length + 1 := by simp
    rw [hlen, extLoop, hget]
    simp only [List.reverse_append, List.reverse_cons, List.reverse_nil, List.nil_append,
      List.singleton_append, List.takeWhile_cons]
    by_cases hsep : IsPathSeparator c = true
    · simp [hsep]
    · have hsep2 : IsPathSeparator c = false := by simpa using hsep
      by_cases hdot : c = '.'
      · subst hdot
        simp [hsep2, hdrop]
      · have hrec : extLoop (init ++ [c] ++ suf) init.length
            = extLoop (init ++ (c :: suf)) init.length := by simp
        have hdot2 : ¬ '.' = c := fun e => hdot e.symm
        simp only [hsep2, hdot, hrec, ih, List.mem_cons, hdot2, false_or, Bool.not_false,
          if_true, if_false, Bool.false_eq_true]
        by_cases hmem : '.' ∈ init.reverse.takeWhile (fun c => !IsPathSeparator c)
        · simp [hmem, hdot]
        · simp [hmem]

/-- The library loop computes the documented extension. -/
theorem Ext_eq_extension (path : String) : Ext path = extension path := by
  unfold Ext extension lastElement
  have h := extLoop_append path.toList []
  rw [List.append_nil] at h
  rw [h]
  simp only [List.mem_reverse, List.reverse_reverse, List.append_nil]
  split <;> rfl

/-- C6: `DetectFormat` returns `FormatCSV` exactly when the extension of the path (the suffix
from the last dot of the final path element) is `.csv`, `FormatJSON` exactly when it is
`.json`, and otherwise the unsupported-extension error with an empty format, also when
there is no extension; `data.csv`, `data.json` and `data.txt` behave accordingly. -/
theorem c6_detectFormat :
    (∀ p : String, Ext p = extension p
      ∧ DetectFormat p
          = if extension p = ".csv" then (FormatCSV, none)
            else if extension p = ".json" then (FormatJSON, none)
            else ("", some (.unsupportedExtension (extension p))))
    ∧ DetectFormat "data.csv" = ("csv", none)
    ∧ DetectFormat "data.json" = ("json", none)
    ∧ DetectFormat "data.txt" = ("", some (.unsupportedExtension ".txt"))
    ∧ DetectFormat "data" = ("", some (.unsupportedExtension ""))
    ∧ DetectFormat "data.CSV" = ("", some (.unsupportedExtension ".CSV"))
    ∧ DetectFormat "dir.csv/data" = ("", some (.unsupportedExtension "")) := by
  refine ⟨fun p => ⟨Ext_eq_extension p, ?_⟩, ?_, ?_, ?_, ?_, ?_, ?_⟩
  · unfold DetectFormat
    rw [Ext_eq_extension]
  all_goals decide

/-! ## `ValidateTrait`: lemmas and the claims -/

theorem lookup_eq_none_of_not_mem {α : Type} (kvs : List (String × α)) (k : String)
    (h : k ∉ kvs.map Prod.fst) : kvs.lookup k = none := by
  induction kvs with
  | nil => rfl
  | cons kv rest ih =>
    obtain ⟨k', v'⟩ := kv
    simp only [List.map_cons, List.mem_cons, not_or] at h
    have hb : (k == k') = false := by simpa using h.1
    simp only [List.lookup, hb]
    exact ih h.2

theorem mapLookup_eq_none {α : Type} (m : Option (List (String × α))) (k : String)
    (h : k ∉ mapKeys m) : mapLookup m k = none := by
  cases m with
  | none => rfl
  | some kvs => exact lookup_eq_none_of_not_mem kvs k h

/-- C8: for a name that is not a declared trait, `ValidateTrait` returns the unknown-trait
error naming it, whatever the value, and makes no library call at all: no sub-schema is
marshalled, registered or compiled, and the compiler is left as it was. -/
theorem c8_unknown_trait {C K V B : Type} (lib : Evaluator C K V B) (s : Schema)
    (compiler : C) (name : String) (value : V)
    (hn : name ∉ mapKeys s.Properties.Traits.Properties) :
    (ValidateTrait lib s compiler name value).err = some (.traitNotFound name)
    ∧ (TraitError.traitNotFound name).Error = "trait \x27" ++ name ++ "\x27 not found in schema"
    ∧ (ValidateTrait lib s compiler name value).calls = []
    ∧ (ValidateTrait lib s compiler name value).compiler = compiler
    ∧ (ValidateTrait lib s compiler name value).panicked = false := by
  unfold ValidateTrait
  rw [mapLookup_eq_none _ _ hn]
  exact ⟨rfl, rfl, rfl, rfl, rfl⟩

/-- C8 witness: `phone` is not a trait of the schema declaring `email` and `name`. -/
theorem c8_unknown_trait_witness :
    "phone" ∉ mapKeys emailSchema.Properties.Traits.Properties
    ∧ (ValidateTrait probeEvaluator emailSchema newProbeCompiler "phone" (.str "x")).err
        = some (.traitNotFound "phone")
    ∧ (TraitError.traitNotFound "phone").Error
        = "trait \x27" ++ "phone" ++ "\x27 not found in schema"
    ∧ (ValidateTrait probeEvaluator emailSchema newProbeCompiler "phone" (.str "x")).calls = []
    ∧ (ValidateTrait probeEvaluator emailSchema newProbeCompiler "phone" (.str "x")).compiler
        = newProbeCompiler
    ∧ (ValidateTrait probeEvaluator emailSchema newProbeCompiler "phone" (.str "x")).panicked
        = false :=
  have h : "phone" ∉ mapKeys emailSchema.Properties.Traits.Properties := by decide
  ⟨h, c8_unknown_trait probeEvaluator emailSchema newProbeCompiler "phone" (.str "x") h⟩

/-- C9 (as stated, refuted): two `ValidateTrait` calls for `email` on the same validator
over a draft-07 schema, both returning nil. The first registers and compiles the
synthesised sub-schema; the second registers it again, which replaces the compiled
resource, and compiles it again: the registration count and the compilation count both
go from one to two. Asking the compiler after the first call for `email` without a new
registration would have reused the compiled schema and left the count at one. -/
theorem c9_repeat_recompiles_counterexample :
    firstEmailCall.err = none ∧ firstEmailCall.panicked = false
    ∧ firstEmailCall.compiler.registrations = 1 ∧ firstEmailCall.compiler.compilations = 1
    ∧ (firstEmailCall.compiler.Compile "email").1.compilations = 1
    ∧ secondEmailCall.err = none ∧ secondEmailCall.panicked = false
    ∧ secondEmailCall.calls
        = [.MarshalSchema, .AddResource "email" emailDocument, .Compile "email",
            .MarshalValue, .Validate (.str "c@d.com")]
    ∧ secondEmailCall.compiler.registrations = 2
    ∧ secondEmailCall.compiler.compilations = 2 :=
  ⟨rfl, rfl, rfl, rfl, rfl, rfl, rfl, rfl, rfl, rfl⟩

/-- C9 (amended): every `ValidateTrait` call for a declared trait whose synthesised
sub-schema marshals, a repeat call included, registers that sub-schema under the trait
name on the compiler the validator holds, whatever it already holds. When the
registration succeeds, the call compiles the name on the compiler the registration left,
leaves the validator with the compiler this compilation left, and validates the value
against the schema this compilation returned; its calls begin with marshalling,
registration and compilation. When the registration fails the call returns that failure,
and when it panics so does the call. -/
theorem c9_every_call_registers {C K V B : Type} (lib : Evaluator C K V B) (s : Schema)
    (compiler : C) (name : String) (value : V) (trait : TraitField) (doc : B)
    (ht : mapLookup s.Properties.Traits.Properties name = some trait)
    (hm : lib.Marshal (synthesise s trait) = .ok doc) :
    (∀ c1, lib.AddResource compiler name doc = .ok c1 →
        (ValidateTrait lib s compiler name value).compiler = (lib.Compile c1 name).1
        ∧ (ValidateTrait lib s compiler name value).panicked = false
        ∧ (ValidateTrait lib s compiler name value).calls.take 3
            = [.MarshalSchema, .AddResource name doc, .Compile name]
        ∧ (∀ e, (lib.Compile c1 name).2 = .error e →
            (ValidateTrait lib s compiler name value).err = some (.compileFailed e))
        ∧ (∀ k e, (lib.Compile c1 name).2 = .ok k → lib.MarshalValue value = .error e →
            (ValidateTrait lib s compiler name value).err = some (.marshalValueFailed e))
        ∧ (∀ k valueBytes, (lib.Compile c1 name).2 = .ok k →
            lib.MarshalValue value = .ok valueBytes →
            (ValidateTrait lib s compiler name value).err
              = (lib.Validate k valueBytes).map (.validationFailed name)))
    ∧ (∀ c1 e, lib.AddResource compiler name doc = .failed c1 e →
        (ValidateTrait lib s compiler name value).err = some (.addSchemaFailed e)
        ∧ (ValidateTrait lib s compiler name value).compiler = c1)
    ∧ (lib.AddResource compiler name doc = .panicked →
        (ValidateTrait lib s compiler name value).panicked = true
        ∧ (ValidateTrait lib s compiler name value).compiler = compiler) := by
  unfold ValidateTrait
  rw [ht]
  simp only [hm]
  refine ⟨?_, ?_, ?_⟩
  · intro c1 hadd
    rw [hadd]
    dsimp only
    rcases hc : lib.Compile c1 name with ⟨c2, e | k⟩
    · refine ⟨rfl, rfl, rfl, ?_, ?_, ?_⟩
      · intro e2 h2; cases h2; rfl
      · intro k2 e2 h2; cases h2
      · intro k2 b2 h2; cases h2
    · dsimp only
      cases hv : lib.MarshalValue value with
      | error e =>
        refine ⟨rfl, rfl, rfl, ?_, ?_, ?_⟩
        · intro e2 h2; cases h2
        · intro k2 e2 h2 h3; cases h3; rfl
        · intro k2 b2 h2 h3; cases h3
      | ok valueBytes =>
        dsimp only
        cases hval : lib.Validate k valueBytes with
        | none =>
          refine ⟨rfl, rfl, rfl, ?_, ?_, ?_⟩
          · intro e2 h2; cases h2
          · intro k2 e2 h2 h3; cases h3
          · intro k2 b2 h2 h3; cases h2; cases h3; rw [hval]; rfl
        | some err =>
          refine ⟨rfl, rfl, rfl, ?_, ?_, ?_⟩
          · intro e2 h2; cases h2
          · intro k2 e2 h2 h3; cases h3
          · intro k2 b2 h2 h3; cases h2; cases h3; rw [hval]; rfl
  · intro c1 e hadd
    rw [hadd]
    exact ⟨rfl, rfl⟩
  · intro hadd
    rw [hadd]
    exact ⟨rfl, rfl⟩

/-- C9 witness: a call for `email` on the compiler left by an earlier successful call for
`email`, which already holds the compiled `email` resource. -/
theorem c9_every_call_registers_witness :
    mapLookup draft7Schema.Properties.Traits.Properties "email" = some plainString
    ∧ probeEvaluator.Marshal (synthesise draft7Schema plainString) = .ok emailDocument
    ∧ (∀ c1, probeEvaluator.AddResource firstEmailCall.compiler "email" emailDocument
          = .ok c1 →
        secondEmailCall.compiler = (probeEvaluator.Compile c1 "email").1
        ∧ secondEmailCall.panicked = false
        ∧ secondEmailCall.calls.take 3
            = [.MarshalSchema, .AddResource "email" emailDocument, .Compile "email"]
        ∧ (∀ e, (probeEvaluator.Compile c1 "email").2 = .error e →
            secondEmailCall.err = some (.compileFailed e))
        ∧ (∀ k e, (probeEvaluator.Compile c1 "email").2 = .ok k →
            probeEvaluator.MarshalValue (.str "c@d.com") = .error e →
            secondEmailCall.err = some (.marshalValueFailed e))
        ∧ (∀ k valueBytes, (probeEvaluator.Compile c1 "email").2 = .ok k →
            probeEvaluator.MarshalValue (.str "c@d.com") = .ok valueBytes →
            secondEmailCall.err
              = (probeEvaluator.Validate k valueBytes).map (.validationFailed "email")))
    ∧ (∀ c1 e, probeEvaluator.AddResource firstEmailCall.compiler "email" emailDocument
          = .failed c1 e →
        secondEmailCall.err = some (.addSchemaFailed e) ∧ secondEmailCall.compiler = c1)
    ∧ (probeEvaluator.AddResource firstEmailCall.compiler "email" emailDocument = .panicked →
        secondEmailCall.panicked = true
        ∧ secondEmailCall.compiler = firstEmailCall.compiler) :=
  ⟨rfl, rfl,
    c9_every_call_registers probeEvaluator draft7Schema firstEmailCall.compiler
      "email" (.str "c@d.com") plainString emailDocument rfl rfl⟩

/-! ## `getJSONHeaders`: the single-object branch -/

/-- After `Token` has consumed an opening brace the decoder is inside the object, where
`Decode` refuses to read a value: every document whose first token is a brace fails. -/
theorem getJSONHeaders_object (file : String) (rest : List Char)
    (h : file.toList.dropWhile isSpace = '{' :: rest) :
    getJSONHeaders file
      = .error (.decodeObjectFailed (.malformed "not at beginning of value")) := by
  have hp : (NewDecoder file).peek
      = .ok ('{', ⟨'{' :: rest, .tokenTopValue, []⟩) := by
    simp only [Decoder.peek, NewDecoder, h]
  have ht : (NewDecoder file).Token
      = .ok (.Delim '{', ⟨rest, .tokenObjectStart, [.tokenTopValue]⟩) := by
    unfold Decoder.Token
    rw [Decoder.tokenLoop, hp]
    simp [Decoder.tokenValueAllowed]
  unfold getJSONHeaders
  simp only [ht]
  simp [Decoder.Decode, Decoder.tokenPrepareForDecode, Decoder.tokenValueAllowed]

/-- C7 (evaluated on the code): on the single top-level object `{"email":"a@b.com"}`
`getJSONHeaders` returns the error of the object branch instead of the header `email`, and
so it does on every document whose first token is an opening brace; on the array
`[{"email":"a@b.com","name":"A"}]` it returns the headers `email` and `name`. -/
theorem c7_single_object_rejected :
    getJSONHeaders "\x7b\"email\":\"a@b.com\"\x7d"
        = .error (.decodeObjectFailed (.malformed "not at beginning of value"))
    ∧ (∀ (file : String) (rest : List Char),
        file.toList.dropWhile isSpace = '{' :: rest →
        getJSONHeaders file
          = .error (.decodeObjectFailed (.malformed "not at beginning of value")))
    ∧ getJSONHeaders "[\x7b\"email\":\"a@b.com\",\"name\":\"A\"\x7d]" = .ok ["email", "name"]
    ∧ getJSONHeaders "[\x7b\"email\":\"a@b.com\",\"name\":\"A\"\x7d, \x7b\"email\":\"c@d.com\"\x7d]"
        = .ok ["email", "name"] :=
  ⟨rfl, getJSONHeaders_object, rfl, rfl⟩

end BatchImport
